import Mathlib

/- Shallow embedding of the article-aggregation core of the ai-newsletter
repository: the entry normalizer, the aggregator (merge, dedupe, sort), the
filter engine and the batch digest driver, as implemented twice in
`src/app.py` (namespace `App`) and `scripts/weekly_report.py` (namespace
`Weekly`), together with proofs about them.

Modelling conventions:
- A Python `datetime` is a wall-clock value (seconds, encoded as `Int`)
  plus an optional UTC offset in seconds (`none` = naive datetime).
  Comparison of aware datetimes compares instants (wall minus offset).
- `feedparser` entries are loosely-typed dictionaries; each field of
  interest is an `Option` whose `some` means "present and truthy" (Python
  truthiness: empty strings/lists/tuples are falsy, hence modelled as
  absent).  Free-text date fields additionally record the outcome of
  `dateutil.parser.parse` on that text as an inner `Option PyDateTime`
  (inner `none` = the parse raised), and structured time breakdowns record
  the outcome of `datetime(*t[:6])` as an inner `Option Int` (a naive
  wall-clock value).  This treats the external date parser as an oracle
  attached to the entry; both copies of the code call the same parser on
  the same field, so the oracle is shared.
- Fetching a feed is external I/O; a source's fetch outcome is part of the
  input (`Except Unit (List RawEntry)`, `error` = the fetch raised).
- The batch driver's file-system and SMTP effects are recorded as an
  ordered event list; an uncaught exception is an `Except.error` result. -/

namespace NewsAgg

/-- Model of a Python `datetime`: wall-clock seconds plus an optional UTC
offset in seconds (`none` = naive). -/
structure PyDateTime where
  wall : Int
  off : Option Int
deriving DecidableEq

/-- The instant a datetime denotes (wall clock minus UTC offset); aware
datetimes compare by instant in Python. -/
def instant (d : PyDateTime) : Int := d.wall - d.off.getD 0

/-- Embedding of `to_utc` from `src/app.py`: a naive datetime is stamped as
UTC (`replace(tzinfo=tz.UTC)`), an aware one is converted (`astimezone`). -/
def to_utc (d : PyDateTime) : PyDateTime :=
  match d.off with
  | none => { wall := d.wall, off := some 0 }
  | some o => { wall := d.wall - o, off := some 0 }

/-- Embedding of `to_local` from `scripts/weekly_report.py` (identical code
also appears in `src/app.py`): a naive datetime is stamped UTC and converted
to the local zone, an aware one is converted to the local zone.  `loc` is the
process-local UTC offset in seconds. -/
def to_local (loc : Int) (d : PyDateTime) : PyDateTime :=
  match d.off with
  | none => { wall := d.wall + loc, off := some loc }
  | some o => { wall := d.wall - o + loc, off := some loc }

/-- A raw feedparser entry, restricted to the fields the normalizer reads.
Outer `Option` = field present and truthy; for date fields the inner
`Option` is the parse/construction outcome (see the header comment). -/
structure RawEntry where
  title : Option String
  link : Option String
  published_parsed : Option (Option Int)
  published : Option (Option PyDateTime)
  pubDate : Option (Option PyDateTime)
  dcDate : Option (Option PyDateTime)
  updated_parsed : Option (Option Int)
  updated : Option (Option PyDateTime)
  author : Option String
  authors : Option (List (Option String))
  summary : Option String
  description : Option String
deriving DecidableEq

/-- The canonical Article record (identical field set in both copies). -/
structure Article where
  title : String
  link : String
  source : String
  published : PyDateTime
  authors : Option String
  summary : Option String
deriving DecidableEq

/-- Python truthiness of an optional string (`None` and `""` are falsy). -/
def truthy : Option String → Bool
  | none => false
  | some s => !s.toList.isEmpty

/-- First successful outcome in a list of date candidates: a candidate that
is absent (outer `none`) or whose parse raised (inner `none`) falls through
to the next. -/
def firstTextSuccess : List (Option (Option PyDateTime)) → Option PyDateTime
  | [] => none
  | some (some d) :: _ => some d
  | _ :: rest => firstTextSuccess rest

/-- View a structured time breakdown (`*_parsed` field) as a date candidate:
present breakdowns yield a naive datetime, a failed `datetime(*t[:6])`
construction yields an inner `none`. -/
def structCand : Option (Option Int) → Option (Option PyDateTime)
  | some (some w) => some (some { wall := w, off := none })
  | some none => some none
  | none => none

/-- Author resolution shared verbatim by both copies: prefer a truthy
`author` string, else join the truthy `name`s of the `authors` list with
`", "`, else absent. -/
def resolveAuthors (e : RawEntry) : Option String :=
  if truthy e.author then e.author
  else
    match e.authors with
    | some l =>
      if l.isEmpty then none
      else some (String.intercalate ", " ((l.filterMap id).filter (fun s => !s.toList.isEmpty)))
    | none => none

/-- Summary resolution shared verbatim by both copies: first truthy field
among `summary`, `description`, else absent. -/
def resolveSummary (e : RawEntry) : Option String :=
  if truthy e.summary then e.summary
  else if truthy e.description then e.description
  else none

/-- Title resolution: `entry.get("title", "(no title)")`. -/
def entryTitle (e : RawEntry) : String := e.title.getD "(no title)"

/-- Link resolution: `entry.get("link") or ""`. -/
def entryLink (e : RawEntry) : String := e.link.getD ""

namespace App

/-- Date resolution of `parse_entry` in `src/app.py`: the free-text fields
`published`, `updated`, `pubDate`, `dc:date` are tried in that order (a
parse failure falls through), and only if all fail is the structured
`published_parsed` breakdown tried.  `updated_parsed` is never consulted. -/
def resolveDate (e : RawEntry) : Option PyDateTime :=
  match firstTextSuccess [e.published, e.updated, e.pubDate, e.dcDate] with
  | some d => some d
  | none =>
    match structCand e.published_parsed with
    | some (some d) => some d
    | _ => none

/-- Embedding of `parse_entry` from `src/app.py`; the stored `published`
value is `to_utc` of the resolved datetime. -/
def parse_entry (e : RawEntry) (source_name : String) : Option Article :=
  match resolveDate e with
  | none => none
  | some d =>
    some
      { title := entryTitle e
        link := entryLink e
        source := source_name
        published := to_utc d
        authors := resolveAuthors e
        summary := resolveSummary e }

end App

namespace Weekly

/-- Date resolution of `parse_entry` in `scripts/weekly_report.py`:
structured `published_parsed`, then free-text `published`, then the
alternate names `pubDate` and `dc:date`, then structured `updated_parsed`,
then free-text `updated`; every failure falls through. -/
def resolveDate (e : RawEntry) : Option PyDateTime :=
  match structCand e.published_parsed with
  | some (some d) => some d
  | _ =>
    match e.published with
    | some (some d) => some d
    | _ =>
      match firstTextSuccess [e.pubDate, e.dcDate] with
      | some d => some d
      | none =>
        match structCand e.updated_parsed with
        | some (some d) => some d
        | _ =>
          match e.updated with
          | some (some d) => some d
          | _ => none

/-- Embedding of `parse_entry` from `scripts/weekly_report.py`; the stored
`published` value is `to_local` of the resolved datetime. -/
def parse_entry (loc : Int) (e : RawEntry) (source_name : String) : Option Article :=
  match resolveDate e with
  | none => none
  | some d =>
    some
      { title := entryTitle e
        link := entryLink e
        source := source_name
        published := to_local loc d
        authors := resolveAuthors e
        summary := resolveSummary e }

end Weekly

/-- One registry source together with its (external) fetch outcome:
`name`/`url` as `src.get(...)`, and `fetch` the result of
`feedparser.parse` on its URL (`error` = the fetch raised). -/
structure SrcFetch where
  name : Option String
  url : Option String
  fetch : Except Unit (List RawEntry)

/-- Articles contributed by one source in `load_articles` (both copies):
a falsy URL is skipped, the display name falls back to the URL, a fetch
exception is swallowed, and each entry is normalized by `parse`. -/
def srcArticles (parse : RawEntry → String → Option Article) (s : SrcFetch) : List Article :=
  if truthy s.url then
    let u := s.url.getD ""
    let nm := if truthy s.name then s.name.getD "" else u
    match s.fetch with
    | Except.error _ => []
    | Except.ok entries => entries.filterMap (fun e => parse e nm)
  else []

/-- The accumulated working list of `load_articles`: sources in registry
order, each contributing its normalized articles. -/
def collect (parse : RawEntry → String → Option Article) (srcs : List SrcFetch) : List Article :=
  (srcs.map (srcArticles parse)).flatten

/-- The dedupe key: `a.link or a.title`. -/
def dedupeKey (a : Article) : String := if a.link.toList.isEmpty then a.title else a.link

/-- The dedupe loop of `load_articles` (both copies), with the `seen` set
of keys made explicit. -/
def dedupeAux (seen : List String) : List Article → List Article
  | [] => []
  | a :: rest =>
    if dedupeKey a ∈ seen then dedupeAux seen rest
    else a :: dedupeAux (dedupeKey a :: seen) rest

/-- Deduplication: first article seen for each key survives. -/
def dedupe (l : List Article) : List Article := dedupeAux [] l

/-- Stable descending insertion for the final sort: an element is placed
before the first element whose published instant is not greater, so equal
instants keep their input order. -/
def insertDesc (a : Article) : List Article → List Article
  | [] => [a]
  | b :: t =>
    if instant b.published ≤ instant a.published then a :: b :: t
    else b :: insertDesc a t

/-- Embedding of `deduped.sort(key=lambda a: a.published, reverse=True)`:
Python's sort is stable, and the stable descending permutation is unique,
so it is realized here by stable insertion sort. -/
def sortPubDesc (l : List Article) : List Article := l.foldr insertDesc []

/-- Embedding of `load_articles` from `src/app.py` (minus the Streamlit
cache wrapper, which only memoizes this pure function of the fetch
results). -/
def App.load_articles (srcs : List SrcFetch) : List Article :=
  sortPubDesc (dedupe (collect App.parse_entry srcs))

/-- Embedding of `load_articles` from `scripts/weekly_report.py`. -/
def Weekly.load_articles (loc : Int) (srcs : List SrcFetch) : List Article :=
  sortPubDesc (dedupe (collect (Weekly.parse_entry loc) srcs))

/-- Lower-casing of a character list (`str.lower`). -/
def lowerList (l : List Char) : List Char := l.map Char.toLower

/-- Does `hay` start with `needle`? -/
def leadsWith : List Char → List Char → Bool
  | [], _ => true
  | _ :: _, [] => false
  | c :: cs, d :: ds => c == d && leadsWith cs ds

/-- Contiguous-substring test (`needle in hay` on Python strings). -/
def containsSeq (needle : List Char) : List Char → Bool
  | [] => leadsWith needle []
  | d :: rest => leadsWith needle (d :: rest) || containsSeq needle rest

/-- The date-window test `start_date <= a.published <= end_date` (aware
datetimes compare by instant). -/
def datePass (start_date end_date : PyDateTime) (a : Article) : Bool :=
  decide (instant start_date ≤ instant a.published) &&
    decide (instant a.published ≤ instant end_date)

/-- The free-text query test of `apply_filters` in `src/app.py`:
`q in a.title.lower() or (a.summary and q in a.summary.lower())` with
`q = query.lower()`. -/
def App.queryMatch (query : String) (a : Article) : Bool :=
  containsSeq (lowerList query.toList) (lowerList a.title.toList) ||
    (match a.summary with
     | some s => !s.toList.isEmpty && containsSeq (lowerList query.toList) (lowerList s.toList)
     | none => false)

/-- Embedding of `apply_filters` from `src/app.py`: one pass applying the
date window, allowed-source set and allowed-region set (sets modelled by
membership in a list), then a second pass applying a truthy free-text
query. -/
def App.apply_filters (articles : List Article) (start_date end_date : PyDateTime)
    (allowed_sources allowed_regions : List String)
    (source_name_to_region : List (String × String)) (query : String) : List Article :=
  let filtered := articles.filter (fun a =>
    datePass start_date end_date a &&
    (allowed_sources.isEmpty || allowed_sources.contains a.source) &&
    (allowed_regions.isEmpty ||
      allowed_regions.contains ((source_name_to_region.lookup a.source).getD "Global")))
  if query.toList.isEmpty then filtered
  else filtered.filter (fun a => App.queryMatch query a)

/-- The start of the batch window: `end - timedelta(days=days)` shifts the
wall clock and keeps the timezone. -/
def Weekly.window_start (now : PyDateTime) (days : Int) : PyDateTime :=
  { wall := now.wall - days * 86400, off := now.off }

/-- Embedding of `filter_last_days_top_n` from `scripts/weekly_report.py`:
window `[now - days, now]` inclusive, then sort descending and keep the
first `top_n`.  `now` is the aware local time `datetime.now(tz=LOCAL_TZ)`,
passed explicitly. -/
def Weekly.filter_last_days_top_n (now : PyDateTime) (days : Int) (top_n : Nat)
    (articles : List Article) : List Article :=
  (sortPubDesc (articles.filter
    (fun a => datePass (Weekly.window_start now days) now a))).take top_n

/-- Modelled from the spec of claim C1 (refinement side): the candidate
order exactly as the claim states it — structured published breakdown,
free-text published, the alternate names `pubDate` and `dc:date`, structured
updated breakdown, free-text updated; first success wins and every parse
failure falls through. -/
def specDateOrder (e : RawEntry) : Option PyDateTime :=
  firstTextSuccess
    [structCand e.published_parsed, e.published, e.pubDate, e.dcDate,
     structCand e.updated_parsed, e.updated]

/-- Modelled from the spec of claim C7: the allowed-source criterion — an
empty allowed set passes everything, otherwise membership of the article's
source name. -/
def sourcePass (allowed : List String) (a : Article) : Bool :=
  allowed.isEmpty || allowed.contains a.source

/-- Modelled from the spec of claim C7: the allowed-region criterion — the
article's region is the source-name-to-region lookup defaulting to
`"Global"`; an empty allowed set passes everything. -/
def regionPass (allowed : List String) (rmap : List (String × String)) (a : Article) : Bool :=
  allowed.isEmpty || allowed.contains ((rmap.lookup a.source).getD "Global")

/-- Modelled from the spec of claim C7: a query matches when it is a
case-insensitive substring of the title or of the summary; an absent
summary never matches via summary. -/
def querySpecMatch (query : String) (a : Article) : Bool :=
  containsSeq (lowerList query.toList) (lowerList a.title.toList) ||
    (match a.summary with
     | some s => containsSeq (lowerList query.toList) (lowerList s.toList)
     | none => false)

/-- Modelled from the spec of claim C7: the query criterion — an
unspecified (empty) query passes everything. -/
def queryPass (query : String) (a : Article) : Bool :=
  query.toList.isEmpty || querySpecMatch query a

/-- Observable effects of the batch driver `main` in
`scripts/weekly_report.py`. -/
inductive Event where
  | mkdirEv : String → Event
  | writeFile : String → Event
  | logLine : String → Event
  | smtpSend : String → Event
deriving DecidableEq

/-- The environment variables the batch driver reads for email dispatch. -/
structure Env where
  sender : Option String
  password : Option String
  recipient : Option String

/-- Embedding of `send_email` from `scripts/weekly_report.py`, reduced to
its control flow: missing sender credentials raise a `ValueError` before
any SMTP traffic; otherwise the message is sent. -/
def Weekly.send_email (sender password : Option String) (to_email : String) :
    List Event × Except String Unit :=
  if !truthy sender || !truthy password then
    ([], Except.error "Please set EMAIL_SENDER and EMAIL_PASSWORD environment variables.")
  else
    ([Event.smtpSend to_email], Except.ok ())

/-- The file-system and log events `main` performs before it considers
sending email, in program order: the digest HTML and CSV are written (and
the GitHub Pages copy), then the paths are printed. -/
def digestWrites : List Event :=
  [Event.mkdirEv "dist",
   Event.writeFile "dist/newsletter.html",
   Event.writeFile "dist/newsletter.csv",
   Event.mkdirEv "docs",
   Event.writeFile "docs/index.html",
   Event.logLine "Wrote: dist/newsletter.html",
   Event.logLine "Wrote: dist/newsletter.csv",
   Event.logLine "Wrote: docs/index.html (for GitHub Pages)"]

/-- Embedding of the tail of `main` in `scripts/weekly_report.py`: after the
digest files are written, a truthy `RECIPIENT_EMAIL` triggers `send_email`
(whose `ValueError` propagates), and an absent one logs a skip message.
The aggregation and rendering steps are modelled only by their recorded
file events, since their content is irrelevant to the dispatch logic. -/
def Weekly.mainRun (env : Env) : List Event × Except String Unit :=
  if truthy env.recipient then
    let r := env.recipient.getD ""
    match Weekly.send_email env.sender env.password r with
    | (ev, Except.ok _) =>
      (digestWrites ++ ev ++ [Event.logLine ("Newsletter sent to " ++ r)], Except.ok ())
    | (ev, Except.error m) => (digestWrites ++ ev, Except.error m)
  else
    (digestWrites ++
      [Event.logLine "No RECIPIENT_EMAIL environment variable set. Skipping email sending."],
     Except.ok ())

/- Concrete sample data for the scenario parts of the claims. -/

/-- An entry with no date-bearing fields at all. -/
def eNoDates : RawEntry :=
  ⟨none, none, none, none, none, none, none, none, none, none, none, none⟩

/-- An entry whose only date-bearing field is a structured "updated"
breakdown. -/
def eUpdOnly : RawEntry := { eNoDates with updated_parsed := some (some 100) }

/-- An entry whose only date-bearing field is a free-text "published" field
whose parse yields a naive datetime. -/
def ePubText : RawEntry := { eNoDates with published := some (some ⟨0, none⟩) }

/-- First of two entries sharing one non-empty link. -/
def eL1 : RawEntry :=
  { eNoDates with
    title := some "First title"
    link := some "shared-link"
    published := some (some ⟨100, some 0⟩) }

/-- Second of two entries sharing one non-empty link, with another title. -/
def eL2 : RawEntry :=
  { eNoDates with
    title := some "Second title"
    link := some "shared-link"
    published := some (some ⟨200, some 0⟩) }

def srcA : SrcFetch := ⟨some "A", some "urlA", Except.ok [eL1]⟩

def srcB : SrcFetch := ⟨some "B", some "urlB", Except.ok [eL2]⟩

def srcUpdOnly : SrcFetch := ⟨some "S", some "urlS", Except.ok [eUpdOnly]⟩

/-- A source whose URL is absent. -/
def srcNoUrl : SrcFetch := ⟨some "bad", none, Except.ok []⟩

/-- The article the app pipeline produces from `eL1` via source `srcA`. -/
def artFirst : Article := ⟨"First title", "shared-link", "A", ⟨100, some 0⟩, none, none⟩

/-- The article the app pipeline produces from `eL2` via source `srcB`. -/
def artSecond : Article := ⟨"Second title", "shared-link", "B", ⟨200, some 0⟩, none, none⟩

/-- The article the app pipeline produces from `ePubText`. -/
def artPubText : Article := ⟨"(no title)", "", "s", ⟨0, some 0⟩, none, none⟩

/-- The article the weekly pipeline produces from `ePubText` at local
offset 3600. -/
def artPubTextW : Article := ⟨"(no title)", "", "s", ⟨3600, some 3600⟩, none, none⟩

def mkArt (i : Nat) : Article := ⟨"", "", "S", ⟨(i : Int), some 0⟩, none, none⟩

/-- Twenty articles with instants 0..19, all inside a 7-day window ending
at instant 20. -/
def arts20 : List Article := (List.range 20).map mkArt

def now20 : PyDateTime := ⟨20, some 0⟩

/- General lemmas about the embedded operations. -/

/-- The weekly normalizer's date resolution is exactly the candidate order
the specification states. -/
theorem weekly_resolveDate_eq_spec (e : RawEntry) : Weekly.resolveDate e = specDateOrder e := by
  obtain ⟨t, l, pp, p, pd, dc, up, u, au, aus, su, de⟩ := e
  rcases pp with _ | (_ | w) <;> rcases p with _ | (_ | d1) <;>
    rcases pd with _ | (_ | d2) <;> rcases dc with _ | (_ | d3) <;>
    rcases up with _ | (_ | w2) <;> rcases u with _ | (_ | d4) <;> rfl

/-- The app normalizer's published value is `to_utc` of its resolved date. -/
theorem app_parse_entry_published (e : RawEntry) (s : String) :
    (App.parse_entry e s).map (fun a => a.published) = (App.resolveDate e).map to_utc := by
  cases h : App.resolveDate e <;> simp [App.parse_entry, h]

/-- The weekly normalizer's published value is `to_local` of its resolved
date. -/
theorem weekly_parse_entry_published (loc : Int) (e : RawEntry) (s : String) :
    (Weekly.parse_entry loc e s).map (fun a => a.published) =
      (Weekly.resolveDate e).map (to_local loc) := by
  cases h : Weekly.resolveDate e <;> simp [Weekly.parse_entry, h]

theorem dedupeAux_sublist (seen : List String) (l : List Article) : (dedupeAux seen l).Sublist l := by
  induction l generalizing seen with
  | nil => simp [dedupeAux]
  | cons a rest ih =>
    by_cases h : dedupeKey a ∈ seen
    · simpa [dedupeAux, h] using (ih seen).cons a
    · simpa [dedupeAux, h] using (ih (dedupeKey a :: seen)).cons₂ a

theorem dedupeAux_key_not_mem {seen : List String} {l : List Article} :
    ∀ a ∈ dedupeAux seen l, dedupeKey a ∉ seen := by
  induction l generalizing seen with
  | nil => simp [dedupeAux]
  | cons b rest ih =>
    by_cases h : dedupeKey b ∈ seen
    · simpa [dedupeAux, h] using fun a ha => ih a ha
    · intro a ha
      rw [show dedupeAux seen (b :: rest) =
            b :: dedupeAux (dedupeKey b :: seen) rest by simp [dedupeAux, h]] at ha
      rcases List.mem_cons.mp ha with rfl | ha2
      · exact h
      · exact fun hmem => ih a ha2 (List.mem_cons_of_mem _ hmem)

theorem dedupeAux_pairwise (seen : List String) (l : List Article) :
    (dedupeAux seen l).Pairwise (fun a b => dedupeKey a ≠ dedupeKey b) := by
  induction l generalizing seen with
  | nil => simp [dedupeAux]
  | cons a rest ih =>
    by_cases h : dedupeKey a ∈ seen
    · simpa [dedupeAux, h] using ih seen
    · rw [show dedupeAux seen (a :: rest) =
            a :: dedupeAux (dedupeKey a :: seen) rest by simp [dedupeAux, h]]
      refine List.Pairwise.cons ?_ (ih (dedupeKey a :: seen))
      intro b hb e
      exact dedupeAux_key_not_mem b hb (e ▸ List.mem_cons_self _ _)

theorem dedupeAux_find? (k : String) (seen : List String) (l : List Article) (hk : k ∉ seen) :
    (dedupeAux seen l).find? (fun a => dedupeKey a == k) =
      l.find? (fun a => dedupeKey a == k) := by
  induction l generalizing seen with
  | nil => rfl
  | cons a rest ih =>
    by_cases h : dedupeKey a ∈ seen
    · have hne : dedupeKey a ≠ k := fun e => hk (e ▸ h)
      rw [show dedupeAux seen (a :: rest) = dedupeAux seen rest by simp [dedupeAux, h],
        List.find?_cons_of_neg _ (by simp [hne]), ih seen hk]
    · rw [show dedupeAux seen (a :: rest) =
            a :: dedupeAux (dedupeKey a :: seen) rest by simp [dedupeAux, h]]
      by_cases he : dedupeKey a = k
      · rw [List.find?_cons_of_pos _ (by simp [he]), List.find?_cons_of_pos _ (by simp [he])]
      · have hk2 : k ∉ dedupeKey a :: seen := by
          intro hmem
          rcases List.mem_cons.mp hmem with e | e
          · exact he e.symm
          · exact hk e
        rw [List.find?_cons_of_neg _ (by simp [he]), List.find?_cons_of_neg _ (by simp [he]),
          ih _ hk2]

theorem dedupeAux_exists_key (seen : List String) (l : List Article) :
    ∀ a ∈ l, dedupeKey a ∈ seen ∨ ∃ b ∈ dedupeAux seen l, dedupeKey b = dedupeKey a := by
  induction l generalizing seen with
  | nil => simp
  | cons c rest ih =>
    intro a ha
    rcases List.mem_cons.mp ha with rfl | ha2
    · by_cases h : dedupeKey a ∈ seen
      · exact Or.inl h
      · exact Or.inr ⟨a, by simp [dedupeAux, h], rfl⟩
    · by_cases h : dedupeKey c ∈ seen
      · rcases ih seen a ha2 with hl | ⟨b, hb, e⟩
        · exact Or.inl hl
        · exact Or.inr ⟨b, by simpa [dedupeAux, h] using hb, e⟩
      · rcases ih (dedupeKey c :: seen) a ha2 with hl | ⟨b, hb, e⟩
        · rcases List.mem_cons.mp hl with e2 | e2
          · exact Or.inr ⟨c, by simp [dedupeAux, h], e2.symm⟩
          · exact Or.inl e2
        · refine Or.inr ⟨b, ?_, e⟩
          rw [show dedupeAux seen (c :: rest) =
                c :: dedupeAux (dedupeKey c :: seen) rest by simp [dedupeAux, h]]
          exact List.mem_cons_of_mem _ hb

theorem mem_insertDesc {x a : Article} {l : List Article} :
    x ∈ insertDesc a l ↔ x = a ∨ x ∈ l := by
  induction l with
  | nil => simp [insertDesc]
  | cons b t ih =>
    by_cases h : instant b.published ≤ instant a.published
    · simp only [insertDesc, if_pos h, List.mem_cons]
    · simp only [insertDesc, if_neg h, List.mem_cons, ih]
      tauto

theorem insertDesc_pairwise {a : Article} {l : List Article}
    (hl : l.Pairwise (fun x y => instant y.published ≤ instant x.published)) :
    (insertDesc a l).Pairwise (fun x y => instant y.published ≤ instant x.published) := by
  induction l with
  | nil => simp [insertDesc]
  | cons b t ih =>
    rcases List.pairwise_cons.mp hl with ⟨hb, ht⟩
    by_cases h : instant b.published ≤ instant a.published
    · rw [show insertDesc a (b :: t) = a :: b :: t by simp [insertDesc, h]]
      refine List.Pairwise.cons ?_ hl
      intro c hc
      rcases List.mem_cons.mp hc with rfl | hc2
      · exact h
      · exact le_trans (hb c hc2) h
    · rw [show insertDesc a (b :: t) = b :: insertDesc a t by simp [insertDesc, h]]
      refine List.Pairwise.cons ?_ (ih ht)
      intro c hc
      rcases mem_insertDesc.mp hc with rfl | hc2
      · exact le_of_lt (not_le.mp h)
      · exact hb c hc2

theorem insertDesc_perm (a : Article) (l : List Article) : (insertDesc a l).Perm (a :: l) := by
  induction l with
  | nil => simp [insertDesc]
  | cons b t ih =>
    by_cases h : instant b.published ≤ instant a.published
    · simp [insertDesc, h]
    · rw [show insertDesc a (b :: t) = b :: insertDesc a t by simp [insertDesc, h]]
      exact (ih.cons b).trans (List.Perm.swap a b t)

theorem sortPubDesc_pairwise (l : List Article) :
    (sortPubDesc l).Pairwise (fun x y => instant y.published ≤ instant x.published) := by
  induction l with
  | nil => simp [sortPubDesc]
  | cons a t ih => exact insertDesc_pairwise ih

theorem sortPubDesc_perm (l : List Article) : (sortPubDesc l).Perm l := by
  induction l with
  | nil => simp [sortPubDesc]
  | cons a t ih => exact (insertDesc_perm a (sortPubDesc t)).trans (ih.cons a)

theorem filter_insertDesc_neg {p : Article → Bool} {a : Article} (ha : p a = false)
    (l : List Article) : (insertDesc a l).filter p = l.filter p := by
  induction l with
  | nil => simp [insertDesc, ha]
  | cons b t ih =>
    by_cases h : instant b.published ≤ instant a.published
    · simp [insertDesc, h, List.filter_cons, ha]
    · rw [show insertDesc a (b :: t) = b :: insertDesc a t by simp [insertDesc, h]]
      simp [List.filter_cons, ih]

theorem filter_insertDesc_pos {tval : Int} {a : Article} (ha : instant a.published = tval)
    {l : List Article} (hl : l.Pairwise (fun x y => instant y.published ≤ instant x.published)) :
    (insertDesc a l).filter (fun x => instant x.published == tval) =
      a :: l.filter (fun x => instant x.published == tval) := by
  induction l with
  | nil => simp [insertDesc, ha]
  | cons b t ih =>
    rcases List.pairwise_cons.mp hl with ⟨hb, ht⟩
    by_cases h : instant b.published ≤ instant a.published
    · rw [show insertDesc a (b :: t) = a :: b :: t by simp [insertDesc, h]]
      simp [List.filter_cons, ha]
    · have hlt : tval < instant b.published := ha ▸ not_le.mp h
      have hbne : (instant b.published == tval) = false := beq_eq_false_iff_ne.mpr (ne_of_gt hlt)
      rw [show insertDesc a (b :: t) = b :: insertDesc a t by simp [insertDesc, h]]
      simp [List.filter_cons, hbne, ih ht]

theorem sortPubDesc_filter_eq (l : List Article) (tval : Int) :
    (sortPubDesc l).filter (fun x => instant x.published == tval) =
      l.filter (fun x => instant x.published == tval) := by
  induction l with
  | nil => rfl
  | cons a t ih =>
    show (insertDesc a (sortPubDesc t)).filter _ = _
    by_cases ha : instant a.published = tval
    · rw [filter_insertDesc_pos ha (sortPubDesc_pairwise t), ih, List.filter_cons]
      simp [ha]
    · have hne : (instant a.published == tval) = false := beq_eq_false_iff_ne.mpr ha
      rw [filter_insertDesc_neg hne, ih, List.filter_cons]
      simp [hne]

theorem containsSeq_nil_of_ne {n : List Char} (h : n ≠ []) : containsSeq n [] = false := by
  cases n with
  | nil => exact absurd rfl h
  | cons c cs => rfl

/-- With a truthy (non-empty) query, the code's query test agrees with the
specification's: the emptiness guard on the summary is redundant because a
non-empty needle is never a substring of the empty string. -/
theorem queryMatch_eq_spec {query : String} (hq : query.toList.isEmpty = false) (a : Article) :
    App.queryMatch query a = querySpecMatch query a := by
  have hq2 : query.toList ≠ [] := by
    intro h
    rw [h] at hq
    simp at hq
  have hne : lowerList query.toList ≠ [] := fun h => hq2 (List.map_eq_nil_iff.mp h)
  cases hs : a.summary with
  | none => simp [App.queryMatch, querySpecMatch, hs]
  | some s =>
    cases hse : s.toList with
    | nil =>
      have hfalse : containsSeq (List.map Char.toLower query.data) [] = false :=
        containsSeq_nil_of_ne hne
      have hse2 : s.data = [] := hse
      simp [App.queryMatch, querySpecMatch, hs, hse2, lowerList, hfalse]
    | cons c cs =>
      have hse2 : s.data = c :: cs := hse
      simp [App.queryMatch, querySpecMatch, hs, hse2, lowerList]

/-- The filter engine of `src/app.py` is the conjunction of the four
specification criteria applied in one pass. -/
theorem apply_filters_eq_filter (articles : List Article) (start_date end_date : PyDateTime)
    (allowed_sources allowed_regions : List String)
    (source_name_to_region : List (String × String)) (query : String) :
    App.apply_filters articles start_date end_date allowed_sources allowed_regions
        source_name_to_region query =
      articles.filter (fun a =>
        datePass start_date end_date a && sourcePass allowed_sources a &&
          regionPass allowed_regions source_name_to_region a && queryPass query a) := by
  unfold App.apply_filters
  by_cases hq : query.toList.isEmpty
  · have hqd : query.data = [] := List.isEmpty_iff.mp hq
    rw [if_pos hq]
    apply List.filter_congr
    intro a _
    simp [sourcePass, regionPass, queryPass, hq, hqd]
  · have hqd : ¬query.data = [] := fun h => hq (List.isEmpty_iff.mpr h)
    have hq2 : query.toList.isEmpty = false := Bool.eq_false_iff.mpr hq
    rw [if_neg hq, List.filter_filter]
    apply List.filter_congr
    intro a _
    rw [queryMatch_eq_spec hq2 a]
    have hq3 : query.data.isEmpty = false := hq2
    simp [sourcePass, regionPass, queryPass, hq3, Bool.and_comm, Bool.and_left_comm,
      Bool.and_assoc]

theorem collect_cons (parse : RawEntry → String → Option Article) (s : SrcFetch)
    (l : List SrcFetch) :
    collect parse (s :: l) = srcArticles parse s ++ collect parse l := by
  simp [collect]

theorem collect_append (parse : RawEntry → String → Option Article) (l₁ l₂ : List SrcFetch) :
    collect parse (l₁ ++ l₂) = collect parse l₁ ++ collect parse l₂ := by
  simp [collect]

/-- A source with a falsy URL, or whose fetch raised, contributes no
articles. -/
theorem srcArticles_eq_nil (parse : RawEntry → String → Option Article) {s : SrcFetch}
    (h : truthy s.url = false ∨ s.fetch = Except.error ()) : srcArticles parse s = [] := by
  rcases h with h | h
  · simp [srcArticles, h]
  · by_cases hu : truthy s.url <;> simp [srcArticles, hu, h]

/-- Correspondence between the two copies' articles: all fields equal
except the published value, which denotes the same instant (app stores it
in UTC, weekly in the local zone). -/
def ArticleRel (a b : Article) : Prop :=
  a.title = b.title ∧ a.link = b.link ∧ a.source = b.source ∧
    a.authors = b.authors ∧ a.summary = b.summary ∧
    instant a.published = instant b.published

theorem instant_to_utc (d : PyDateTime) : instant (to_utc d) = instant d := by
  cases h : d.off <;> simp [instant, to_utc, h]

theorem instant_to_local (loc : Int) (d : PyDateTime) : instant (to_local loc d) = instant d := by
  cases h : d.off <;> simp [instant, to_local, h]

theorem key_eq_of_rel {a b : Article} (h : ArticleRel a b) : dedupeKey a = dedupeKey b := by
  obtain ⟨ht, hl, -⟩ := h
  simp [dedupeKey, hl, ht]

theorem inst_eq_of_rel {a b : Article} (h : ArticleRel a b) :
    instant a.published = instant b.published := h.2.2.2.2.2

theorem filterMap_parse_rel (loc : Int) (n : String) (es : List RawEntry)
    (h : ∀ e ∈ es, App.resolveDate e = Weekly.resolveDate e) :
    List.Forall₂ ArticleRel (es.filterMap (fun e => App.parse_entry e n))
      (es.filterMap (fun e => Weekly.parse_entry loc e n)) := by
  induction es with
  | nil => exact List.Forall₂.nil
  | cons e rest ih =>
    have he := h e (List.mem_cons_self e rest)
    have hrest := ih fun x hx => h x (List.mem_cons_of_mem e hx)
    cases hd : Weekly.resolveDate e with
    | none =>
      have ha : App.resolveDate e = none := he.trans hd
      simpa [List.filterMap_cons, App.parse_entry, Weekly.parse_entry, ha, hd] using hrest
    | some d =>
      have ha : App.resolveDate e = some d := he.trans hd
      simp only [List.filterMap_cons, App.parse_entry, Weekly.parse_entry, ha, hd]
      exact List.Forall₂.cons
        ⟨rfl, rfl, rfl, rfl, rfl, by rw [instant_to_utc, instant_to_local]⟩ hrest

/-- Entries a source's fetch produced (none when the fetch raised). -/
def fetchedEntries (s : SrcFetch) : List RawEntry :=
  match s.fetch with
  | Except.ok es => es
  | Except.error _ => []

theorem srcArticles_rel (loc : Int) (s : SrcFetch)
    (h : ∀ e ∈ fetchedEntries s, App.resolveDate e = Weekly.resolveDate e) :
    List.Forall₂ ArticleRel (srcArticles App.parse_entry s)
      (srcArticles (Weekly.parse_entry loc) s) := by
  by_cases hu : truthy s.url
  · cases hf : s.fetch with
    | error u => simp [srcArticles, hu, hf]
    | ok es =>
      have h2 : ∀ e ∈ es, App.resolveDate e = Weekly.resolveDate e := by
        simpa [fetchedEntries, hf] using h
      simpa [srcArticles, hu, hf] using filterMap_parse_rel loc _ es h2
  · simp [srcArticles, hu]

theorem collect_rel (loc : Int) (srcs : List SrcFetch)
    (h : ∀ s ∈ srcs, ∀ e ∈ fetchedEntries s, App.resolveDate e = Weekly.resolveDate e) :
    List.Forall₂ ArticleRel (collect App.parse_entry srcs)
      (collect (Weekly.parse_entry loc) srcs) := by
  induction srcs with
  | nil => exact List.Forall₂.nil
  | cons s rest ih =>
    rw [collect_cons, collect_cons]
    exact List.rel_append (srcArticles_rel loc s (h s (List.mem_cons_self s rest)))
      (ih fun x hx => h x (List.mem_cons_of_mem s hx))

theorem dedupeAux_rel (seen : List String) {l₁ l₂ : List Article}
    (h : List.Forall₂ ArticleRel l₁ l₂) :
    List.Forall₂ ArticleRel (dedupeAux seen l₁) (dedupeAux seen l₂) := by
  induction h generalizing seen with
  | nil => exact List.Forall₂.nil
  | @cons a b t₁ t₂ hab htl ih =>
    have hk := key_eq_of_rel hab
    by_cases hs : dedupeKey a ∈ seen
    · rw [show dedupeAux seen (a :: t₁) = dedupeAux seen t₁ by simp [dedupeAux, hs],
        show dedupeAux seen (b :: t₂) = dedupeAux seen t₂ by simp [dedupeAux, ← hk, hs]]
      exact ih seen
    · rw [show dedupeAux seen (a :: t₁) = a :: dedupeAux (dedupeKey a :: seen) t₁ by
          simp [dedupeAux, hs],
        show dedupeAux seen (b :: t₂) = b :: dedupeAux (dedupeKey b :: seen) t₂ by
          simp [dedupeAux, ← hk, hs]]
      rw [← hk]
      exact List.Forall₂.cons hab (ih (dedupeKey a :: seen))

theorem insertDesc_rel {a b : Article} (hab : ArticleRel a b) {l₁ l₂ : List Article}
    (h : List.Forall₂ ArticleRel l₁ l₂) :
    List.Forall₂ ArticleRel (insertDesc a l₁) (insertDesc b l₂) := by
  induction h with
  | nil => exact List.Forall₂.cons hab List.Forall₂.nil
  | @cons c d t₁ t₂ hcd htl ih =>
    have hi1 := inst_eq_of_rel hab
    have hi2 := inst_eq_of_rel hcd
    by_cases hc : instant c.published ≤ instant a.published
    · rw [show insertDesc a (c :: t₁) = a :: c :: t₁ by simp [insertDesc, hc],
        show insertDesc b (d :: t₂) = b :: d :: t₂ by simp [insertDesc, ← hi1, ← hi2, hc]]
      exact List.Forall₂.cons hab (List.Forall₂.cons hcd htl)
    · rw [show insertDesc a (c :: t₁) = c :: insertDesc a t₁ by simp [insertDesc, hc],
        show insertDesc b (d :: t₂) = d :: insertDesc b t₂ by simp [insertDesc, ← hi1, ← hi2, hc]]
      exact List.Forall₂.cons hcd ih

theorem sortPubDesc_rel {l₁ l₂ : List Article} (h : List.Forall₂ ArticleRel l₁ l₂) :
    List.Forall₂ ArticleRel (sortPubDesc l₁) (sortPubDesc l₂) := by
  induction h with
  | nil => exact List.Forall₂.nil
  | @cons a b t₁ t₂ hab htl ih => exact insertDesc_rel hab ih

/- Claim theorems. -/

/-- C1 counterexample: an entry whose only date-bearing field is a
structured "updated" breakdown yields no Article under the `src/app.py`
normalizer (which never consults `updated_parsed`), contradicting the
claimed fallback order for that copy; the weekly copy does yield one. -/
theorem c1_counterexample :
    App.parse_entry eUpdOnly "src" = none ∧ Weekly.parse_entry 0 eUpdOnly "src" ≠ none :=
  ⟨rfl, by decide⟩

/-- C1 (amended): the `weekly_report.py` normalizer resolves the published
timestamp by the claimed candidate order (structured published, free-text
published, pubDate and dc:date, structured updated, free-text updated;
first success wins, failures fall through); the `app.py` normalizer instead
tries the free-text fields published, updated, pubDate, dc:date in that
order and then the structured published breakdown, never consulting the
structured updated breakdown; in either copy an entry with no date-bearing
fields yields no Article. -/
theorem c1_date_resolution (loc : Int) (e : RawEntry) (s : String) :
    (Weekly.parse_entry loc e s).map (fun a => a.published) =
        (specDateOrder e).map (to_local loc) ∧
      (App.parse_entry e s).map (fun a => a.published) = (App.resolveDate e).map to_utc ∧
      App.parse_entry e s = App.parse_entry { e with updated_parsed := none } s ∧
      (e.published_parsed = none → e.published = none → e.pubDate = none → e.dcDate = none →
        e.updated_parsed = none → e.updated = none →
        App.parse_entry e s = none ∧ Weekly.parse_entry loc e s = none) := by
  refine ⟨?_, app_parse_entry_published e s, rfl, ?_⟩
  · rw [weekly_parse_entry_published, weekly_resolveDate_eq_spec]
  · intro h1 h2 h3 h4 h5 h6
    constructor
    · simp [App.parse_entry, App.resolveDate, firstTextSuccess, structCand, h1, h2, h3, h4, h6]
    · simp [Weekly.parse_entry, Weekly.resolveDate, firstTextSuccess, structCand,
        h1, h2, h3, h4, h5, h6]

/-- C1 witness: the amended theorem applied to the entry with no
date-bearing fields. -/
theorem c1_witness :
    App.parse_entry eNoDates "src" = none ∧ Weekly.parse_entry 0 eNoDates "src" = none :=
  (c1_date_resolution 0 eNoDates "src").2.2.2 rfl rfl rfl rfl rfl rfl

/-- C2 counterexample: with a process-local offset of +3600 s, the app copy
stores a published value whose zone is UTC (offset 0), not the local zone;
the weekly copy stores the local zone. -/
theorem c2_counterexample :
    (App.parse_entry ePubText "s").map (fun a => a.published.off) = some (some 0) ∧
      (Weekly.parse_entry 3600 ePubText "s").map (fun a => a.published.off) =
        some (some 3600) ∧
      (some (0 : Int) : Option Int) ≠ some 3600 :=
  ⟨rfl, rfl, by decide⟩

/-- C2 (amended): every stored published value is zone-aware in a single
consistent zone, but the zone differs between the copies — `app.py` stores
UTC (offset 0) via `to_utc`, `weekly_report.py` stores the process-local
zone via `to_local`; both treat a naive timestamp as UTC, so the naive and
explicit-UTC readings of the same wall clock denote the same instant under
either conversion. -/
theorem c2_timezone_normalization (loc w : Int) (d : PyDateTime) (e : RawEntry) (s : String) :
    (to_local loc d).off = some loc ∧
      (to_utc d).off = some 0 ∧
      instant (to_local loc d) = instant (to_utc d) ∧
      instant (to_utc ⟨w, none⟩) = instant (to_utc ⟨w, some 0⟩) ∧
      instant (to_local loc ⟨w, none⟩) = instant (to_local loc ⟨w, some 0⟩) ∧
      (∀ a, App.parse_entry e s = some a → a.published.off = some 0) ∧
      (∀ a, Weekly.parse_entry loc e s = some a → a.published.off = some loc) := by
  refine ⟨?_, ?_, ?_, ?_, ?_, ?_, ?_⟩
  · cases h : d.off <;> simp [to_local, h]
  · cases h : d.off <;> simp [to_utc, h]
  · rw [instant_to_local, instant_to_utc]
  · simp [to_utc, instant]
  · simp [to_local, instant]
  · intro a ha
    cases hd : App.resolveDate e with
    | none => simp [App.parse_entry, hd] at ha
    | some d2 =>
      simp only [App.parse_entry, hd, Option.some.injEq] at ha
      subst ha
      cases h2 : d2.off <;> simp [to_utc, h2]
  · intro a ha
    cases hd : Weekly.resolveDate e with
    | none => simp [Weekly.parse_entry, hd] at ha
    | some d2 =>
      simp only [Weekly.parse_entry, hd, Option.some.injEq] at ha
      subst ha
      cases h2 : d2.off <;> simp [to_local, h2]

/-- C2 witness: the amended theorem applied to the free-text-published
entry at local offset 3600. -/
theorem c2_witness :
    artPubText.published.off = some 0 ∧ artPubTextW.published.off = some 3600 :=
  ⟨(c2_timezone_normalization 3600 0 ⟨0, none⟩ ePubText "s").2.2.2.2.2.1 artPubText rfl,
   (c2_timezone_normalization 3600 0 ⟨0, none⟩ ePubText "s").2.2.2.2.2.2 artPubTextW rfl⟩

/-- C3 counterexample: on identical fetch results (one source whose single
entry carries only a structured "updated" breakdown), the app copy
produces no articles while the weekly copy produces one, so the two copies
are not equivalent. -/
theorem c3_counterexample :
    App.load_articles [srcUpdOnly] = [] ∧ (Weekly.load_articles 0 [srcUpdOnly]).length = 1 :=
  ⟨rfl, rfl⟩

/-- C3 (amended): given identical fetch results on which the two copies'
differing date-resolution orders happen to agree for every fetched entry,
the two `load_articles` produce articles in the same order, pairwise equal
in title, link, source, authors and summary and denoting the same published
instant (app stores UTC, weekly stores local time); each copy is a pure
function of its fetch results, hence deterministic given them. -/
theorem c3_copies_equivalent (loc : Int) (srcs : List SrcFetch)
    (h : ∀ s ∈ srcs, ∀ e ∈ fetchedEntries s, App.resolveDate e = Weekly.resolveDate e) :
    List.Forall₂ ArticleRel (App.load_articles srcs) (Weekly.load_articles loc srcs) :=
  sortPubDesc_rel (dedupeAux_rel [] (collect_rel loc srcs h))

/-- C3 witness: the amended theorem applied to a concrete registry where
both orders resolve every entry identically. -/
theorem c3_witness :
    List.Forall₂ ArticleRel (App.load_articles [srcA]) (Weekly.load_articles 0 [srcA]) :=
  c3_copies_equivalent 0 [srcA] (by decide)

/-- C4: deduplication keeps, for each key (`link` if non-empty else
`title`), exactly the first article of the working list, dropping every
later one: the output is a subsequence of the input, no two survivors share
a key, the survivor for any key is the first input article with that key,
every input key is represented, and in the concrete duplicate-link scenario
(two sources, identical non-empty link, different titles) only the
first-encountered article survives the full pipeline. -/
theorem c4_dedupe_first_seen_wins (l : List Article) :
    (dedupe l).Sublist l ∧
      (dedupe l).Pairwise (fun a b => dedupeKey a ≠ dedupeKey b) ∧
      (∀ k, (dedupe l).find? (fun a => dedupeKey a == k) =
        l.find? (fun a => dedupeKey a == k)) ∧
      (∀ a ∈ l, ∃ b ∈ dedupe l, dedupeKey b = dedupeKey a) ∧
      App.load_articles [srcA, srcB] = [artFirst] := by
  refine ⟨dedupeAux_sublist [] l, dedupeAux_pairwise [] l,
    fun k => dedupeAux_find? k [] l (List.not_mem_nil k), ?_, rfl⟩
  intro a ha
  rcases dedupeAux_exists_key [] l a ha with h | h
  · exact absurd h (List.not_mem_nil _)
  · exact h

/-- C4 witness: the first-seen-wins characterization evaluated on the two
shared-link articles. -/
theorem c4_witness :
    (dedupe [artFirst, artSecond]).find? (fun a => dedupeKey a == "shared-link") =
      [artFirst, artSecond].find? (fun a => dedupeKey a == "shared-link") :=
  (c4_dedupe_first_seen_wins [artFirst, artSecond]).2.2.1 "shared-link"

/-- C5: both copies' canonical collections are sorted by published
descending — every pair (in particular every adjacent pair) satisfies
`a.published >= b.published` on instants — and the sort is stable: articles
with any fixed published instant keep their relative order from the
deduplicated input list, of which the result is a permutation. -/
theorem c5_sort_descending_stable (loc : Int) (srcs : List SrcFetch) :
    (App.load_articles srcs).Pairwise
        (fun a b => instant b.published ≤ instant a.published) ∧
      (∀ t, (App.load_articles srcs).filter (fun a => instant a.published == t) =
        (dedupe (collect App.parse_entry srcs)).filter (fun a => instant a.published == t)) ∧
      (App.load_articles srcs).Perm (dedupe (collect App.parse_entry srcs)) ∧
      (Weekly.load_articles loc srcs).Pairwise
        (fun a b => instant b.published ≤ instant a.published) ∧
      (∀ t, (Weekly.load_articles loc srcs).filter (fun a => instant a.published == t) =
        (dedupe (collect (Weekly.parse_entry loc) srcs)).filter
          (fun a => instant a.published == t)) ∧
      (Weekly.load_articles loc srcs).Perm (dedupe (collect (Weekly.parse_entry loc) srcs)) :=
  ⟨sortPubDesc_pairwise _, fun t => sortPubDesc_filter_eq _ t, sortPubDesc_perm _,
   sortPubDesc_pairwise _, fun t => sortPubDesc_filter_eq _ t, sortPubDesc_perm _⟩

/-- C6: the filter engine returns an ordered subsequence of its input
(a sublist, so relative order is preserved), every article in the result
lies inside the date window with both boundaries inclusive, and with all
other criteria unspecified the result is exactly the input filtered by the
inclusive window test. -/
theorem c6_filter_window (articles : List Article) (sd ed : PyDateTime)
    (srcsA regsA : List String) (rmap : List (String × String)) (q : String) :
    (App.apply_filters articles sd ed srcsA regsA rmap q).Sublist articles ∧
      (∀ a ∈ App.apply_filters articles sd ed srcsA regsA rmap q,
        instant sd ≤ instant a.published ∧ instant a.published ≤ instant ed) ∧
      App.apply_filters articles sd ed [] [] rmap "" =
        articles.filter (fun a => datePass sd ed a) := by
  refine ⟨?_, ?_, ?_⟩
  · rw [apply_filters_eq_filter]
    exact List.filter_sublist _
  · intro a ha
    rw [apply_filters_eq_filter] at ha
    have hp := (List.mem_filter.mp ha).2
    simp only [Bool.and_eq_true] at hp
    have hd := hp.1.1.1
    simpa [datePass, Bool.and_eq_true, decide_eq_true_eq] using hd
  · rw [apply_filters_eq_filter]
    apply List.filter_congr
    intro a _
    have h1 : sourcePass [] a = true := rfl
    have h2 : regionPass [] rmap a = true := rfl
    have h3 : queryPass "" a = true := rfl
    rw [h1, h2, h3, Bool.and_true, Bool.and_true, Bool.and_true]

/-- C6 witness: an article exactly at both window boundaries at once
(start = end = its published time) is included. -/
theorem c6_witness :
    instant (⟨100, some 0⟩ : PyDateTime) ≤ instant artFirst.published ∧
      instant artFirst.published ≤ instant (⟨100, some 0⟩ : PyDateTime) :=
  (c6_filter_window [artFirst] ⟨100, some 0⟩ ⟨100, some 0⟩ [] [] [] "").2.1
    artFirst (by decide)

/-- C7: the filter criteria combine by logical AND (the engine equals one
filter pass over the conjunction of the four criteria); an empty
allowed-source set passes every article, an empty allowed-region set passes
every article, the region of an article whose source is absent from the
lookup defaults to "Global", and a query matches an article with an absent
summary only via a case-insensitive substring test on its title. -/
theorem c7_filter_criteria (articles : List Article) (sd ed : PyDateTime)
    (srcsA regsA : List String) (rmap : List (String × String)) (q : String)
    (a : Article) (t l src : String) (p : PyDateTime) (au : Option String) :
    App.apply_filters articles sd ed srcsA regsA rmap q =
        articles.filter (fun x =>
          datePass sd ed x && sourcePass srcsA x && regionPass regsA rmap x &&
            queryPass q x) ∧
      sourcePass [] a = true ∧
      regionPass [] rmap a = true ∧
      regionPass regsA [] a = (regsA.isEmpty || regsA.contains "Global") ∧
      querySpecMatch q ⟨t, l, src, p, au, none⟩ =
        containsSeq (lowerList q.toList) (lowerList t.toList) := by
  refine ⟨apply_filters_eq_filter articles sd ed srcsA regsA rmap q, rfl, rfl, rfl, ?_⟩
  simp [querySpecMatch]

/-- C8: the batch filter applies only the inclusive trailing date window
`[now - days, now]` and then truncates to the `top_n` most recent articles:
the result is the prefix of the descending-sorted in-window articles, it is
sorted descending, every article in it lies in the window, its length is
the minimum of `top_n` and the number of in-window articles, and every
article in it is at least as recent as every in-window article left out. -/
theorem c8_batch_truncation (now : PyDateTime) (days : Int) (top_n : Nat)
    (articles : List Article) :
    Weekly.filter_last_days_top_n now days top_n articles =
        (sortPubDesc (articles.filter
          (fun a => datePass (Weekly.window_start now days) now a))).take top_n ∧
      (Weekly.filter_last_days_top_n now days top_n articles).Pairwise
        (fun a b => instant b.published ≤ instant a.published) ∧
      (∀ a ∈ Weekly.filter_last_days_top_n now days top_n articles,
        datePass (Weekly.window_start now days) now a = true) ∧
      (Weekly.filter_last_days_top_n now days top_n articles).length =
        min top_n (articles.filter
          (fun a => datePass (Weekly.window_start now days) now a)).length ∧
      (∀ a ∈ Weekly.filter_last_days_top_n now days top_n articles,
        ∀ b ∈ (sortPubDesc (articles.filter
          (fun a => datePass (Weekly.window_start now days) now a))).drop top_n,
        instant b.published ≤ instant a.published) := by
  refine ⟨rfl, ?_, ?_, ?_, ?_⟩
  · exact List.Pairwise.sublist (List.take_sublist _ _) (sortPubDesc_pairwise _)
  · intro a ha
    have h1 : a ∈ sortPubDesc (articles.filter
        (fun a => datePass (Weekly.window_start now days) now a)) :=
      (List.take_sublist _ _).subset ha
    have h2 := (sortPubDesc_perm _).mem_iff.mp h1
    exact (List.mem_filter.mp h2).2
  · show (List.take top_n _).length = _
    rw [List.length_take, (sortPubDesc_perm _).length_eq]
  · intro a ha b hb
    have hsplit := List.pairwise_append.mp (by
      rw [List.take_append_drop top_n (sortPubDesc (articles.filter
        (fun a => datePass (Weekly.window_start now days) now a)))]
      exact sortPubDesc_pairwise _)
    exact hsplit.2.2 a ha b hb

/-- C8 witness: with 20 articles inside the window and `top_n = 10`, the
batch filter returns exactly 10 articles. -/
theorem c8_witness : (Weekly.filter_last_days_top_n now20 7 10 arts20).length = 10 := by
  rw [(c8_batch_truncation now20 7 10 arts20).2.2.2.1]
  decide

/-- C9: aggregation is fault-isolated per source in both copies — a source
whose URL is absent or empty, or whose fetch raised, contributes zero
articles and its removal leaves the output unchanged; `load_articles` is a
total function of the fetch results, so it never raises. -/
theorem c9_source_fault_isolation (loc : Int) (pre post : List SrcFetch) (s : SrcFetch)
    (h : s.url = none ∨ s.url = some "" ∨ s.fetch = Except.error ()) :
    App.load_articles (pre ++ s :: post) = App.load_articles (pre ++ post) ∧
      Weekly.load_articles loc (pre ++ s :: post) = Weekly.load_articles loc (pre ++ post) := by
  have hnil : ∀ parse : RawEntry → String → Option Article, srcArticles parse s = [] := by
    intro parse
    apply srcArticles_eq_nil
    rcases h with h | h | h
    · exact Or.inl (by rw [h]; rfl)
    · exact Or.inl (by rw [h]; rfl)
    · exact Or.inr h
  constructor
  · show sortPubDesc (dedupe (collect App.parse_entry (pre ++ s :: post))) = _
    rw [collect_append, collect_cons, hnil, List.nil_append, ← collect_append]
    rfl
  · show sortPubDesc (dedupe (collect (Weekly.parse_entry loc) (pre ++ s :: post))) = _
    rw [collect_append, collect_cons, hnil, List.nil_append, ← collect_append]
    rfl

/-- C9 witness: dropping a URL-less source between two healthy sources
leaves both pipelines' outputs unchanged. -/
theorem c9_witness :
    App.load_articles [srcA, srcNoUrl, srcB] = App.load_articles [srcA, srcB] ∧
      Weekly.load_articles 0 [srcA, srcNoUrl, srcB] = Weekly.load_articles 0 [srcA, srcB] :=
  c9_source_fault_isolation 0 [srcA] [srcB] srcNoUrl (Or.inl rfl)

/-- C10: in the batch run, an unconfigured recipient makes email dispatch a
logged no-op after the digest files are written, with no error; a
configured recipient with missing sender credentials makes the run end in
the credentials error, with the digest HTML and CSV files already written
(the event trace is exactly the writes, containing both files and no SMTP
send). -/
theorem c10_email_dispatch (env : Env) :
    (truthy env.recipient = false →
      Weekly.mainRun env =
        (digestWrites ++
          [Event.logLine
            "No RECIPIENT_EMAIL environment variable set. Skipping email sending."],
         Except.ok ())) ∧
      (truthy env.recipient = true →
        truthy env.sender = false ∨ truthy env.password = false →
        Weekly.mainRun env =
            (digestWrites,
             Except.error
               "Please set EMAIL_SENDER and EMAIL_PASSWORD environment variables.") ∧
          Event.writeFile "dist/newsletter.html" ∈ (Weekly.mainRun env).1 ∧
          Event.writeFile "dist/newsletter.csv" ∈ (Weekly.mainRun env).1 ∧
          ∀ r, Event.smtpSend r ∉ (Weekly.mainRun env).1) := by
  constructor
  · intro h
    simp [Weekly.mainRun, h]
  · intro h hcred
    have hsend : Weekly.send_email env.sender env.password (env.recipient.getD "") =
        ([], Except.error
          "Please set EMAIL_SENDER and EMAIL_PASSWORD environment variables.") := by
      unfold Weekly.send_email
      rcases hcred with hc | hc <;> simp [hc]
    have hmain : Weekly.mainRun env =
        (digestWrites,
         Except.error "Please set EMAIL_SENDER and EMAIL_PASSWORD environment variables.") := by
      simp only [Weekly.mainRun, if_pos h, hsend, List.append_nil]
    refine ⟨hmain, ?_, ?_, ?_⟩
    · rw [hmain]
      simp [digestWrites]
    · rw [hmain]
      simp [digestWrites]
    · intro r hr
      rw [hmain] at hr
      simp [digestWrites] at hr

/-- C10 witness: the theorem applied to a run with no recipient and to a
run with a recipient but no credentials. -/
theorem c10_witness :
    Weekly.mainRun ⟨some "u", some "p", none⟩ =
        (digestWrites ++
          [Event.logLine
            "No RECIPIENT_EMAIL environment variable set. Skipping email sending."],
         Except.ok ()) ∧
      Weekly.mainRun ⟨none, none, some "r"⟩ =
        (digestWrites,
         Except.error "Please set EMAIL_SENDER and EMAIL_PASSWORD environment variables.") :=
  ⟨(c10_email_dispatch ⟨some "u", some "p", none⟩).1 rfl,
   ((c10_email_dispatch ⟨none, none, some "r"⟩).2 rfl (Or.inl rfl)).1⟩

end NewsAgg
